import Mathlib

/-!
# Verification of the `argument` configuration-resolution engine

This file gives a shallow embedding, in Lean 4, of the core of the
`bborbe/argument` Go library: the three source resolvers
(`DefaultValues`, `envToValues`, `argsToValues`), the precedence merge
(`mergeValues`), the structural assignment step (`Fill`), the presence
validator (`ValidateRequired` / `validateRequiredField` /
`handleCustomTypeValidation`) and the semantic validator
(`ValidateHasValidation` / `validateField` / `validateSlice`), together
with the slice conversion helper `parseSliceFromString` and the
environment-block scanner inside `envToValues`.

Modelling conventions:

* Go `map[string]T` values are modelled as association lists
  (`List (String × T)`) with an overwrite-on-insert operation; lookup
  takes the first matching entry, and insert replaces the first
  matching entry in place, which gives the same key/value semantics as
  a Go map.
* Machine integers are modelled as `Nat`/`Int` (no claim in scope
  exercises overflow of `strconv`); `float64` is modelled as `Rat`
  restricted to plain decimal literals (no claim in scope compares
  parsed float values).
* The external `github.com/bborbe/time` parsing primitives
  (`ParseDuration`, `ParseTime`) are external collaborators of the
  engine; they are passed in as an explicit `TimeLib` parameter and
  concrete theorems instantiate them with a small executable model.
* Errors are modelled with `Except String`; `errors.Wrap(ctx, err, m)`
  becomes prefixing with `m ++ ": "`.
-/

set_option autoImplicit false

namespace Argument

/-! ## Models of the `strconv` parsing primitives

`strconv.ParseBool` accepts exactly `1,t,T,TRUE,true,True` and
`0,f,F,FALSE,false,False`.  The integer parsers are modelled for plain
decimal input (optional sign for the signed forms); `ParseFloat` is
modelled for plain decimal literals producing a `Rat`. -/

def parseBoolModel (s : String) : Option Bool :=
  if s = "1" ∨ s = "t" ∨ s = "T" ∨ s = "TRUE" ∨ s = "true" ∨ s = "True" then some true
  else if s = "0" ∨ s = "f" ∨ s = "F" ∨ s = "FALSE" ∨ s = "false" ∨ s = "False" then some false
  else none

def digitsToNat : List Char → Nat → Option Nat
  | [], acc => some acc
  | c :: rest, acc =>
    if c.isDigit then digitsToNat rest (acc * 10 + (c.toNat - '0'.toNat))
    else none

/-- Model of `strconv.ParseUint(s, 10, _)`: decimal digits, no sign. -/
def parseUintModel (s : String) : Option Nat :=
  match s.data with
  | [] => none
  | cs => digitsToNat cs 0

/-- Model of `strconv.Atoi` / `strconv.ParseInt(s, 10, _)`:
optional sign followed by decimal digits. -/
def parseIntModel (s : String) : Option Int :=
  match s.data with
  | '-' :: rest => (digitsToNat rest 0).bind fun n => if rest = [] then none else some (-(n : Int))
  | '+' :: rest => (digitsToNat rest 0).bind fun n => if rest = [] then none else some (n : Int)
  | [] => none
  | cs => (digitsToNat cs 0).map fun n => (n : Int)

/-- Model of `strconv.ParseFloat(s, 64)` restricted to plain decimal
literals `[+-]digits[.digits]`, producing an exact `Rat`. -/
def parseFloatModel (s : String) : Option Rat :=
  let core : List Char → Option Rat := fun cs =>
    match cs.splitOn '.' with
    | [intPart] =>
      if intPart = [] then none
      else (digitsToNat intPart 0).map fun n => (n : Rat)
    | [intPart, fracPart] =>
      if intPart = [] ∧ fracPart = [] then none
      else
        (digitsToNat intPart 0).bind fun i =>
          (digitsToNat fracPart 0).map fun f =>
            (i : Rat) + (f : Rat) / ((10 : Rat) ^ fracPart.length)
    | _ => none
  match s.data with
  | '-' :: rest => (core rest).map Neg.neg
  | '+' :: rest => core rest
  | cs => core cs

/-! ## Association-list maps (model of Go `map[string]T`) -/

/-- First-match lookup, the model of reading a Go map. -/
def lookupV {α : Type} : List (String × α) → String → Option α
  | [], _ => none
  | (k, v) :: t, key => if k = key then some v else lookupV t key

/-- Overwrite-insert, the model of `m[k] = v` on a Go map: replaces the
first entry with the same key, else appends. -/
def insertV {α : Type} : List (String × α) → String → α → List (String × α)
  | [], k, v => [(k, v)]
  | (k', v') :: t, k, v => if k' = k then (k, v) :: t else (k', v') :: insertV t k v

theorem lookupV_insertV_self {α : Type} (m : List (String × α)) (k : String) (v : α) :
    lookupV (insertV m k v) k = some v := by
  induction m with
  | nil => simp [insertV, lookupV]
  | cons hd t ih =>
    obtain ⟨k', v'⟩ := hd
    by_cases h : k' = k
    · simp [insertV, h, lookupV]
    · simp [insertV, h, lookupV, ih]

theorem lookupV_insertV_ne {α : Type} (m : List (String × α)) (k k' : String) (v : α)
    (h : k' ≠ k) : lookupV (insertV m k' v) k = lookupV m k := by
  induction m with
  | nil => simp [insertV, lookupV, h]
  | cons hd t ih =>
    obtain ⟨k0, v0⟩ := hd
    by_cases h0 : k0 = k'
    · subst h0; simp [insertV, lookupV, h]
    · simp only [insertV, if_neg h0]
      by_cases h1 : k0 = k
      · simp [lookupV, h1]
      · simp [lookupV, h1, ih]

/-! ## The environment-block scanner of `envToValues`

```go
envValues := make(map[string]string)
for _, env := range environ {
    for i := 0; i < len(env); i++ {
        if env[i] == '=' {
            envValues[env[:i]] = env[i+1:]
        }
    }
}
```

The inner loop visits every index of the entry and, at every `'='`,
binds the prefix before it to the suffix after it.  `entryBindings`
collects those `(prefix, suffix)` pairs in loop order. -/

def entryBindingsAux : List Char → List Char → List (List Char × List Char)
  | _, [] => []
  | pre, c :: rest =>
    (if c = '=' then [(pre, rest)] else []) ++ entryBindingsAux (pre ++ [c]) rest

/-- The `(env[:i], env[i+1:])` pairs produced by the inner loop of
`envToValues` for one `environ` entry, in increasing order of `i`. -/
def entryBindings (s : String) : List (List Char × List Char) :=
  entryBindingsAux [] s.data

/-- The `envValues` map built by `envToValues` from the whole
environment block. -/
def envValuesMap (environ : List String) : List (String × String) :=
  environ.foldl
    (fun m e =>
      (entryBindings e).foldl (fun m kv => insertV m (String.mk kv.1) (String.mk kv.2)) m)
    []

/-- Scanning `name ++ "=" ++ value` where `name` contains no `'='`:
the first binding maps `name` to the whole suffix `value`, and the scan
continues inside `value` with the prefix grown past the `'='`. -/
theorem entryBindingsAux_split (pre name value : List Char) (h : '=' ∉ name) :
    entryBindingsAux pre (name ++ '=' :: value)
      = (pre ++ name, value) :: entryBindingsAux (pre ++ name ++ ['=']) value := by
  induction name generalizing pre with
  | nil => simp [entryBindingsAux]
  | cons c rest ih =>
    simp only [List.mem_cons, not_or] at h
    have hc : ¬(c = '=') := fun hc => h.1 hc.symm
    simp [entryBindingsAux, hc, ih (pre ++ [c]) h.2]

theorem entryBindingsAux_no_eq (pre xs : List Char) (h : '=' ∉ xs) :
    entryBindingsAux pre xs = [] := by
  induction xs generalizing pre with
  | nil => rfl
  | cons c rest ih =>
    simp only [List.mem_cons, not_or] at h
    have hc : ¬(c = '=') := fun hc => h.1 hc.symm
    simp [entryBindingsAux, hc, ih _ h.2]

/-- An entry with no `'='` produces no binding at all. -/
theorem entryBindings_no_eq (s : String) (h : '=' ∉ s.data) :
    entryBindings s = [] :=
  entryBindingsAux_no_eq [] s.data h

/-! ## The Go type and value model

`GoTy` enumerates the field types the engine dispatches on: the exact
types of the Go type switches (`string`, `bool`, `int`, `int32`,
`int64`, `uint`, `uint64`, `float64`, `*float64`, `time.Duration`,
`time.Time`), pointer types, slice types, user-defined named types
(non-empty package path) over an underlying type, and representatives
of the unsupported world (`time.Time` is a struct type, `chan int` a
channel type).  `kindOf` is `reflect.Type.Kind`, `pkgPath` is
`reflect.Type.PkgPath`, `typeName` renders `%T`. -/

inductive GoKind where
  | kString | kBool | kInt | kInt32 | kInt64 | kUint | kUint64 | kFloat64
  | kPtr | kSlice | kStruct | kChan
  deriving DecidableEq, Repr

inductive GoTy where
  | string | bool | int | int32 | int64 | uint | uint64 | float64
  | ptrFloat64
  | duration
  | time
  | ptr (inner : GoTy)
  | slice (elem : GoTy)
  | named (pkg nm : String) (u : GoTy)
  | chanInt
  deriving DecidableEq, Repr

def kindOf : GoTy → GoKind
  | .string => .kString
  | .bool => .kBool
  | .int => .kInt
  | .int32 => .kInt32
  | .int64 => .kInt64
  | .uint => .kUint
  | .uint64 => .kUint64
  | .float64 => .kFloat64
  | .ptrFloat64 => .kPtr
  | .duration => .kInt64
  | .time => .kStruct
  | .ptr _ => .kPtr
  | .slice _ => .kSlice
  | .named _ _ u => kindOf u
  | .chanInt => .kChan

def pkgPath : GoTy → String
  | .named pkg _ _ => pkg
  | .duration => "time"
  | .time => "time"
  | _ => ""

def typeName : GoTy → String
  | .string => "string"
  | .bool => "bool"
  | .int => "int"
  | .int32 => "int32"
  | .int64 => "int64"
  | .uint => "uint"
  | .uint64 => "uint64"
  | .float64 => "float64"
  | .ptrFloat64 => "*float64"
  | .duration => "time.Duration"
  | .time => "time.Time"
  | .ptr t => "*" ++ typeName t
  | .slice t => "[]" ++ typeName t
  | .named pkg nm _ => pkg ++ "." ++ nm
  | .chanInt => "chan int"

/-- `for underlyingType.Kind() == reflect.Ptr { underlyingType = underlyingType.Elem() }` -/
def stripPtr : GoTy → GoTy
  | .ptr t => stripPtr t
  | .ptrFloat64 => .float64
  | t => t

/-- Runtime values; `ptr none` is a nil pointer, `nilSlice` a nil Go
slice (distinct from `slice []`, an allocated empty slice). -/
inductive GoValue where
  | str (s : String)
  | bool (b : Bool)
  | int (n : Int)
  | int32 (n : Int)
  | int64 (n : Int)
  | uint (n : Nat)
  | uint64 (n : Nat)
  | float (q : Rat)
  | dur (ns : Int)
  | time (ns : Int)
  | ptr (v : Option GoValue)
  | slice (elems : List GoValue)
  | nilSlice
  | named (pkg nm : String) (inner : GoValue)

/-- The Go zero value of each type. -/
def zeroValue : GoTy → GoValue
  | .string => .str ""
  | .bool => .bool false
  | .int => .int 0
  | .int32 => .int32 0
  | .int64 => .int64 0
  | .uint => .uint 0
  | .uint64 => .uint64 0
  | .float64 => .float 0
  | .ptrFloat64 => .ptr none
  | .duration => .dur 0
  | .time => .time 0
  | .ptr _ => .ptr none
  | .slice _ => .nilSlice
  | .named pkg nm u => .named pkg nm (zeroValue u)
  | .chanInt => .ptr none

/-! ## `strings.Split` and `strings.TrimSpace` models -/

def isSpaceGo (c : Char) : Bool :=
  c = ' ' ∨ c = '\t' ∨ c = '\n' ∨ c = '\x0b' ∨ c = '\x0c' ∨ c = '\r'

/-- Model of `strings.TrimSpace`. -/
def goTrimSpace (s : String) : String :=
  String.mk (((s.data.dropWhile isSpaceGo).reverse.dropWhile isSpaceGo).reverse)

/-- Index of the first occurrence of `sep` (as a sublist) in `s`. -/
def findSub (sep : List Char) : List Char → Option Nat
  | [] => if sep.isPrefixOf ([] : List Char) then some 0 else none
  | c :: rest =>
    if sep.isPrefixOf (c :: rest) then some 0
    else (findSub sep rest).map (· + 1)

/-- One splitting step per fuel unit; with `fuel ≥ length` this is
`strings.Split` for a non-empty separator (repeatedly cut at the first
occurrence of `sep`). -/
def goSplitFuel (sep : List Char) : Nat → List Char → List (List Char)
  | 0, s => [s]
  | fuel + 1, s =>
    match findSub sep s with
    | none => [s]
    | some i => s.take i :: goSplitFuel sep fuel (s.drop (i + sep.length))

/-- Model of `strings.Split(s, sep)`: for `sep = ""` Go explodes the
string into its runes; otherwise it cuts around each non-overlapping
occurrence of `sep`, scanning from the left. -/
def goSplit (s sep : String) : List String :=
  if sep = "" then s.data.map (fun c => String.mk [c])
  else (goSplitFuel sep.data (s.data.length + 1) s.data).map String.mk

theorem data_eq_nil {s : String} (h : s.data = []) : s = "" := by
  cases s
  simp_all

/-- Splitting the empty string always yields segments that trim/filter
to nothing. -/
theorem goSplit_empty (sep : String) :
    goSplit "" sep = [] ∨ goSplit "" sep = [""] := by
  by_cases h : sep = ""
  · left; simp [goSplit, h]
  · right
    have hd : sep.data ≠ [] := fun hnil => h (data_eq_nil hnil)
    simp only [goSplit, if_neg h]
    match hsep : sep.data with
    | [] => exact absurd hsep hd
    | c :: cs => simp [goSplitFuel, findSub, List.isPrefixOf]

/-! ## `parseSliceFromString` -/

def quoteS (s : String) : String := "\"" ++ s ++ "\""

def convInt (p : String) : Except String GoValue :=
  match parseIntModel p with
  | some v => .ok (.int v)
  | none => .error ("parse int " ++ quoteS p ++ " failed")

def convInt64 (p : String) : Except String GoValue :=
  match parseIntModel p with
  | some v => .ok (.int64 v)
  | none => .error ("parse int64 " ++ quoteS p ++ " failed")

def convUint (p : String) : Except String GoValue :=
  match parseUintModel p with
  | some v => .ok (.uint v)
  | none => .error ("parse uint " ++ quoteS p ++ " failed")

def convUint64 (p : String) : Except String GoValue :=
  match parseUintModel p with
  | some v => .ok (.uint64 v)
  | none => .error ("parse uint64 " ++ quoteS p ++ " failed")

def convFloat64 (p : String) : Except String GoValue :=
  match parseFloatModel p with
  | some v => .ok (.float v)
  | none => .error ("parse float64 " ++ quoteS p ++ " failed")

def convBool (p : String) : Except String GoValue :=
  match parseBoolModel p with
  | some v => .ok (.bool v)
  | none => .error ("parse bool " ++ quoteS p ++ " failed")

/-- The `for i, p := range trimmed { v, err := ...; if err != nil return nil, err }`
loops of `parseSliceFromString`, one per element kind, abstracted over
the element converter: converts in order, aborting at the first error. -/
def convSegments (f : String → Except String GoValue) : List String → Except String (List GoValue)
  | [] => .ok []
  | p :: rest =>
    match f p with
    | .error e => .error e
    | .ok v =>
      match convSegments f rest with
      | .error e => .error e
      | .ok vs => .ok (v :: vs)

/-- Model of `parseSliceFromString`: split on the separator, trim each
part, drop parts that are empty after trimming, then convert according
to the element type's kind (Go switches on `elemType.Kind()`, so named
string types take the `reflect.String` case and are returned as raw
strings, to be converted by `Fill`). -/
def parseSliceFromString (value sep : String) (elem : GoTy) : Except String (List GoValue) :=
  if value = "" then .ok []
  else
    let parts := goSplit value sep
    let trimmed := (parts.map goTrimSpace).filter (fun t => t ≠ "")
    if trimmed = [] then .ok []
    else
      match kindOf elem with
      | .kString => .ok (trimmed.map GoValue.str)
      | .kInt => convSegments convInt trimmed
      | .kInt64 => convSegments convInt64 trimmed
      | .kUint => convSegments convUint trimmed
      | .kUint64 => convSegments convUint64 trimmed
      | .kFloat64 => convSegments convFloat64 trimmed
      | .kBool => convSegments convBool trimmed
      | _ => .error ("unsupported slice element type: " ++ typeName elem)

/-- The trimmed, non-empty segments of `value` under separator `sep`. -/
def segmentsOf (value sep : String) : List String :=
  ((goSplit value sep).map goTrimSpace).filter (fun t => t ≠ "")

/-- The element kinds `parseSliceFromString` supports. -/
def kindSupported : GoKind → Bool
  | .kString | .kInt | .kInt64 | .kUint | .kUint64 | .kFloat64 | .kBool => true
  | _ => false

/-- Per-segment conversion dispatched on the element type's kind. -/
def convElem (elem : GoTy) (p : String) : Except String GoValue :=
  match kindOf elem with
  | .kString => .ok (.str p)
  | .kInt => convInt p
  | .kInt64 => convInt64 p
  | .kUint => convUint p
  | .kUint64 => convUint64 p
  | .kFloat64 => convFloat64 p
  | .kBool => convBool p
  | _ => .error ("unsupported slice element type: " ++ typeName elem)

theorem convSegments_pure (f : String → GoValue) (l : List String) :
    convSegments (fun p => .ok (f p)) l = .ok (l.map f) := by
  induction l with
  | nil => rfl
  | cons p rest ih => simp [convSegments, ih]

theorem segmentsOf_empty (sep : String) : segmentsOf "" sep = [] := by
  rcases goSplit_empty sep with h | h <;> simp [segmentsOf, h, goTrimSpace]

theorem parseSliceFromString_eq (value sep : String) (elem : GoTy) :
    parseSliceFromString value sep elem =
      if value = "" then .ok []
      else if segmentsOf value sep = [] then .ok []
      else
        match kindOf elem with
        | .kString => .ok ((segmentsOf value sep).map GoValue.str)
        | .kInt => convSegments convInt (segmentsOf value sep)
        | .kInt64 => convSegments convInt64 (segmentsOf value sep)
        | .kUint => convSegments convUint (segmentsOf value sep)
        | .kUint64 => convSegments convUint64 (segmentsOf value sep)
        | .kFloat64 => convSegments convFloat64 (segmentsOf value sep)
        | .kBool => convSegments convBool (segmentsOf value sep)
        | _ => .error ("unsupported slice element type: " ++ typeName elem) := rfl

/-- `parseSliceFromString` *is* trimmed-split-filter followed by
per-segment conversion, for every supported element kind. -/
theorem parseSliceFromString_characterization (value sep : String) (elem : GoTy)
    (hs : kindSupported (kindOf elem) = true) :
    parseSliceFromString value sep elem = convSegments (convElem elem) (segmentsOf value sep) := by
  rw [parseSliceFromString_eq]
  by_cases hv : value = ""
  · subst hv
    simp [segmentsOf_empty, convSegments]
  · rw [if_neg hv]
    by_cases ht : segmentsOf value sep = []
    · rw [if_pos ht, ht]
      rfl
    · rw [if_neg ht]
      cases helem : kindOf elem with
      | kString =>
        have hfun : convElem elem = fun p => Except.ok (GoValue.str p) := by
          funext p; simp [convElem, helem]
        rw [hfun, convSegments_pure]
      | kInt =>
        have hfun : convElem elem = convInt := by funext p; simp [convElem, helem]
        rw [hfun]
      | kInt64 =>
        have hfun : convElem elem = convInt64 := by funext p; simp [convElem, helem]
        rw [hfun]
      | kUint =>
        have hfun : convElem elem = convUint := by funext p; simp [convElem, helem]
        rw [hfun]
      | kUint64 =>
        have hfun : convElem elem = convUint64 := by funext p; simp [convElem, helem]
        rw [hfun]
      | kFloat64 =>
        have hfun : convElem elem = convFloat64 := by funext p; simp [convElem, helem]
        rw [hfun]
      | kBool =>
        have hfun : convElem elem = convBool := by funext p; simp [convElem, helem]
        rw [hfun]
      | kInt32 => rw [helem] at hs; simp [kindSupported] at hs
      | kPtr => rw [helem] at hs; simp [kindSupported] at hs
      | kSlice => rw [helem] at hs; simp [kindSupported] at hs
      | kStruct => rw [helem] at hs; simp [kindSupported] at hs
      | kChan => rw [helem] at hs; simp [kindSupported] at hs

/-! ## Field metadata

One record per struct field: the field identifier and the recognized
struct tags (`arg`, `env`, `default`, `required`, `separator`,
`usage`), plus the field's type.  `none` models an absent tag
(`Tag.Lookup` returning `ok = false`). -/

structure FieldMeta where
  name : String
  ty : GoTy
  argTag : Option String := none
  envTag : Option String := none
  defaultTag : Option String := none
  requiredTag : Option String := none
  separatorTag : Option String := none
  usageTag : Option String := none

/-! ## `ValidateRequired` (presence pass)

Direct translation of `validateRequiredField` /
`handleCustomTypeValidation` / `ValidateRequired` from
`argument_validate.go`. -/

/-- The message built by the `createError` closure of
`validateRequiredField`. -/
def createErrorMsg (f : FieldMeta) : String :=
  "Required field empty, "
    ++ (match f.argTag with
        | some a => "define parameter " ++ a
        | none => "")
    ++ (match f.envTag with
        | some e => (if f.argTag.isSome then " or " else "") ++ "define env " ++ e
        | none => "")

/- The per-case emptiness checks of the Go type switch
(`var empty T; empty == ef.Interface()`): each compares the dynamic
value against the zero value of the *exact* case type, so a value of a
different dynamic type never compares equal. -/

def isEmptyStringVal : GoValue → Bool
  | .str s => s = ""
  | _ => false

def isZeroIntVal : GoValue → Bool
  | .int n => n = 0
  | _ => false

def isZeroInt32Val : GoValue → Bool
  | .int32 n => n = 0
  | _ => false

def isZeroInt64Val : GoValue → Bool
  | .int64 n => n = 0
  | _ => false

def isZeroUintVal : GoValue → Bool
  | .uint n => n = 0
  | _ => false

def isZeroUint64Val : GoValue → Bool
  | .uint64 n => n = 0
  | _ => false

def isZeroFloatVal : GoValue → Bool
  | .float q => q = 0
  | _ => false

def isZeroDurVal : GoValue → Bool
  | .dur n => n = 0
  | _ => false

/-- `var empty *float64; empty == ef.Interface()`: nil-pointer test. -/
def isNilPtrFloatVal : GoValue → Bool
  | .ptr none => true
  | _ => false

/-- `ef.IsNil()` for a pointer-kinded field (named pointer types have
kind `Ptr` and are nil exactly when the wrapped pointer is). -/
def goIsNilPtr : GoValue → Bool
  | .ptr none => true
  | .named _ _ v => goIsNilPtr v
  | _ => false

/-- `ef.Len()` for a slice-kinded field. -/
def goSliceLen : GoValue → Nat
  | .slice vs => vs.length
  | .named _ _ v => goSliceLen v
  | _ => 0

/-- Whether a primitive value is the zero of its type (used for the
zero comparison inside `handleCustomTypeValidation`, where the dynamic
type is the named type itself, so the comparison reduces to comparing
the underlying representation). -/
def isZeroPrimVal : GoValue → Bool
  | .str s => s = ""
  | .int n => n = 0
  | .int32 n => n = 0
  | .int64 n => n = 0
  | .uint n => n = 0
  | .uint64 n => n = 0
  | .float q => q = 0
  | .dur n => n = 0
  | _ => false

/-- `ef.Interface() == reflect.Zero(underlyingType).Interface()` for a
named type: true iff the value carries the named type and its
underlying representation is zero. -/
def namedValIsZero : GoValue → Bool
  | .named _ _ inner => isZeroPrimVal inner
  | .dur n => n = 0
  | _ => false

/-- Model of `handleCustomTypeValidation`: after stripping pointers,
a named (non-empty package path) non-struct type of one of the listed
kinds is handled; bool kinds are never considered empty, all others
are compared against the zero value. -/
def handleCustomTypeValidation (f : FieldMeta) (v : GoValue) : Option (Except String Unit) :=
  let u := stripPtr f.ty
  if pkgPath u ≠ "" ∧ kindOf u ≠ .kStruct then
    match kindOf u with
    | .kString | .kInt | .kInt32 | .kInt64 | .kUint | .kUint64 | .kFloat64 =>
      some (if namedValIsZero v then .error (createErrorMsg f) else .ok ())
    | .kBool => some (.ok ())
    | _ => none
  else none

/-- Model of `validateRequiredField`: the Go type switch on the exact
field type, then pointers (nil check), slices (length check), named
types (`handleCustomTypeValidation`), and otherwise the
unsupported-type error. -/
def validateRequiredField (f : FieldMeta) (v : GoValue) : Except String Unit :=
  match f.ty with
  | .string => if isEmptyStringVal v then .error (createErrorMsg f) else .ok ()
  | .bool => .ok ()
  | .int => if isZeroIntVal v then .error (createErrorMsg f) else .ok ()
  | .int64 => if isZeroInt64Val v then .error (createErrorMsg f) else .ok ()
  | .uint => if isZeroUintVal v then .error (createErrorMsg f) else .ok ()
  | .uint64 => if isZeroUint64Val v then .error (createErrorMsg f) else .ok ()
  | .int32 => if isZeroInt32Val v then .error (createErrorMsg f) else .ok ()
  | .float64 => if isZeroFloatVal v then .error (createErrorMsg f) else .ok ()
  | .ptrFloat64 => if isNilPtrFloatVal v then .error (createErrorMsg f) else .ok ()
  | .duration => if isZeroDurVal v then .error (createErrorMsg f) else .ok ()
  | ty =>
    if kindOf ty = .kPtr then
      if goIsNilPtr v then .error (createErrorMsg f) else .ok ()
    else if kindOf ty = .kSlice then
      if goSliceLen v = 0 then .error (createErrorMsg f) else .ok ()
    else
      match handleCustomTypeValidation f v with
      | some r => r
      | none =>
        .error ("field " ++ f.name ++ " with type " ++ typeName f.ty ++ " is unsupported")

/-- Model of `ValidateRequired`: visit the fields in declaration
order, check each one whose `required` tag equals `"true"`, and return
the first failure. -/
def ValidateRequired : List (FieldMeta × GoValue) → Except String Unit
  | [] => .ok ()
  | (f, v) :: rest =>
    if f.requiredTag = some "true" then
      match validateRequiredField f v with
      | .error e => .error e
      | .ok _ => ValidateRequired rest
    else
      ValidateRequired rest

/-! ### Classification of the presence pass's branches -/

/-- Types matched by a case of the `validateRequiredField` type switch. -/
def inPresenceSwitch : GoTy → Bool
  | .string | .bool | .int | .int64 | .uint | .uint64 | .int32 | .float64
  | .ptrFloat64 | .duration => true
  | _ => false

/-- Kinds `handleCustomTypeValidation` knows how to check. -/
def customHandledKind : GoKind → Bool
  | .kString | .kBool | .kInt | .kInt32 | .kInt64 | .kUint | .kUint64 | .kFloat64 => true
  | _ => false

/-- Whether `handleCustomTypeValidation` reports the type as handled. -/
def customHandled (ty : GoTy) : Bool :=
  pkgPath (stripPtr ty) ≠ "" ∧ kindOf (stripPtr ty) ≠ .kStruct
    ∧ customHandledKind (kindOf (stripPtr ty))

/-- Types for which the presence pass has *some* check (switch case,
pointer, slice, or handled named type); everything else hits the
unsupported-type error. -/
def presenceSupported (ty : GoTy) : Bool :=
  inPresenceSwitch ty ∨ kindOf ty = .kPtr ∨ kindOf ty = .kSlice ∨ customHandled ty

/-- The empty/zero representation tested by the presence pass, per
branch of `validateRequiredField` (booleans and handled named boolean
types are never empty). -/
def isEmptyRep (ty : GoTy) (v : GoValue) : Bool :=
  match ty with
  | .string => isEmptyStringVal v
  | .bool => false
  | .int => isZeroIntVal v
  | .int64 => isZeroInt64Val v
  | .uint => isZeroUintVal v
  | .uint64 => isZeroUint64Val v
  | .int32 => isZeroInt32Val v
  | .float64 => isZeroFloatVal v
  | .ptrFloat64 => isNilPtrFloatVal v
  | .duration => isZeroDurVal v
  | ty =>
    if kindOf ty = .kPtr then goIsNilPtr v
    else if kindOf ty = .kSlice then goSliceLen v = 0
    else if customHandled ty then
      if kindOf (stripPtr ty) = .kBool then false else namedValIsZero v
    else false

/-- Bool fields and named types over a boolean representation. -/
def boolLike : GoTy → Bool
  | .bool => true
  | .named pkg _ u => pkg ≠ "" ∧ kindOf u = .kBool
  | _ => false

/-- A required field of a presence-supported type with an empty/zero
value fails with exactly the `createError` message. -/
theorem validateRequiredField_empty (f : FieldMeta) (v : GoValue)
    (hsup : presenceSupported f.ty = true) (hemp : isEmptyRep f.ty v = true) :
    validateRequiredField f v = .error (createErrorMsg f) := by
  rw [validateRequiredField.eq_def]
  cases hty : f.ty with
  | string => rw [hty] at hemp; simp [isEmptyRep] at hemp; simp [hemp]
  | bool => rw [hty] at hemp; simp [isEmptyRep] at hemp
  | int => rw [hty] at hemp; simp [isEmptyRep] at hemp; simp [hemp]
  | int32 => rw [hty] at hemp; simp [isEmptyRep] at hemp; simp [hemp]
  | int64 => rw [hty] at hemp; simp [isEmptyRep] at hemp; simp [hemp]
  | uint => rw [hty] at hemp; simp [isEmptyRep] at hemp; simp [hemp]
  | uint64 => rw [hty] at hemp; simp [isEmptyRep] at hemp; simp [hemp]
  | float64 => rw [hty] at hemp; simp [isEmptyRep] at hemp; simp [hemp]
  | ptrFloat64 => rw [hty] at hemp; simp [isEmptyRep] at hemp; simp [hemp]
  | duration => rw [hty] at hemp; simp [isEmptyRep] at hemp; simp [hemp]
  | time =>
    rw [hty] at hsup
    simp [presenceSupported, inPresenceSwitch, kindOf, customHandled, stripPtr, pkgPath,
      customHandledKind] at hsup
  | chanInt =>
    rw [hty] at hsup
    simp [presenceSupported, inPresenceSwitch, kindOf, customHandled, stripPtr, pkgPath,
      customHandledKind] at hsup
  | ptr inner =>
    rw [hty] at hemp
    simp [isEmptyRep, kindOf] at hemp
    simp [kindOf, hemp]
  | slice elem =>
    rw [hty] at hemp
    simp [isEmptyRep, kindOf] at hemp
    simp [kindOf, hemp]
  | named pkg nm' u =>
    rw [hty] at hsup hemp
    by_cases hptr : kindOf (GoTy.named pkg nm' u) = GoKind.kPtr
    · simp [isEmptyRep, hptr] at hemp
      simp [hptr, hemp]
    · by_cases hslc : kindOf (GoTy.named pkg nm' u) = GoKind.kSlice
      · simp [isEmptyRep, hptr, hslc] at hemp
        simp [hptr, hslc, hemp]
      · have hch : customHandled (GoTy.named pkg nm' u) = true := by
          simp [presenceSupported, inPresenceSwitch, hptr, hslc] at hsup
          exact hsup
        have hnb : ¬kindOf (GoTy.named pkg nm' u) = GoKind.kBool := by
          intro hb
          simp [isEmptyRep, hptr, hslc, hch, stripPtr, hb] at hemp
        have hemp' : namedValIsZero v = true := by
          simp [isEmptyRep, hptr, hslc, hch, stripPtr, hnb] at hemp
          exact hemp
        simp only [customHandled, stripPtr, Bool.decide_and, Bool.and_eq_true,
          decide_eq_true_eq] at hch
        obtain ⟨hpkg, hnstruct, hkind⟩ := hch
        simp only [if_neg hptr, if_neg hslc]
        simp only [handleCustomTypeValidation]
        rw [hty]
        simp only [stripPtr]
        rw [if_pos ⟨hpkg, hnstruct⟩]
        revert hkind
        cases hk : kindOf (GoTy.named pkg nm' u) <;>
          simp_all [customHandledKind, stripPtr, hemp']

/-- Bool fields and handled named boolean types never fail the
presence check, whatever their value. -/
theorem validateRequiredField_boolLike (f : FieldMeta) (v : GoValue)
    (hb : boolLike f.ty = true) :
    validateRequiredField f v = .ok () := by
  rw [validateRequiredField.eq_def]
  cases hty : f.ty with
  | bool => rfl
  | named pkg nm' u =>
    rw [hty] at hb
    simp only [boolLike, Bool.decide_and, Bool.and_eq_true, decide_eq_true_eq] at hb
    obtain ⟨hpkg, hkb⟩ := hb
    have hptr : ¬kindOf (GoTy.named pkg nm' u) = GoKind.kPtr := by simp [kindOf, hkb]
    have hslc : ¬kindOf (GoTy.named pkg nm' u) = GoKind.kSlice := by simp [kindOf, hkb]
    simp only [if_neg hptr, if_neg hslc]
    simp only [handleCustomTypeValidation]
    rw [hty]
    simp only [stripPtr]
    have hcond : pkgPath (GoTy.named pkg nm' u) ≠ ""
        ∧ kindOf (GoTy.named pkg nm' u) ≠ GoKind.kStruct := by
      constructor
      · simpa [pkgPath] using hpkg
      · simp [kindOf, hkb]
    rw [if_pos hcond]
    have hk : kindOf (GoTy.named pkg nm' u) = GoKind.kBool := by simp [kindOf, hkb]
    rw [hk]
  | string => rw [hty] at hb; simp [boolLike] at hb
  | int => rw [hty] at hb; simp [boolLike] at hb
  | int32 => rw [hty] at hb; simp [boolLike] at hb
  | int64 => rw [hty] at hb; simp [boolLike] at hb
  | uint => rw [hty] at hb; simp [boolLike] at hb
  | uint64 => rw [hty] at hb; simp [boolLike] at hb
  | float64 => rw [hty] at hb; simp [boolLike] at hb
  | ptrFloat64 => rw [hty] at hb; simp [boolLike] at hb
  | duration => rw [hty] at hb; simp [boolLike] at hb
  | time => rw [hty] at hb; simp [boolLike] at hb
  | ptr inner => rw [hty] at hb; simp [boolLike] at hb
  | slice elem => rw [hty] at hb; simp [boolLike] at hb
  | chanInt => rw [hty] at hb; simp [boolLike] at hb

/-- A required field whose type falls outside every presence-pass
branch yields the unsupported-type error, whatever its value. -/
theorem validateRequiredField_unsupported (f : FieldMeta) (v : GoValue)
    (hu : presenceSupported f.ty = false) :
    validateRequiredField f v
      = .error ("field " ++ f.name ++ " with type " ++ typeName f.ty ++ " is unsupported") := by
  have hsw : inPresenceSwitch f.ty = false := by
    rcases hb : inPresenceSwitch f.ty with _ | _
    · rfl
    · rw [presenceSupported.eq_def] at hu
      simp [hb] at hu
  have hptr : ¬kindOf f.ty = GoKind.kPtr := by
    intro h
    rw [presenceSupported.eq_def] at hu
    simp [h] at hu
  have hslc : ¬kindOf f.ty = GoKind.kSlice := by
    intro h
    rw [presenceSupported.eq_def] at hu
    simp [h] at hu
  have hch : customHandled f.ty = false := by
    rcases hb : customHandled f.ty with _ | _
    · rfl
    · rw [presenceSupported.eq_def] at hu
      simp [hb] at hu
  have hnone : handleCustomTypeValidation f v = none := by
    rw [handleCustomTypeValidation]
    by_cases hcond : pkgPath (stripPtr f.ty) ≠ "" ∧ kindOf (stripPtr f.ty) ≠ GoKind.kStruct
    · rw [if_pos hcond]
      have hk : customHandledKind (kindOf (stripPtr f.ty)) = false := by
        rcases hb2 : customHandledKind (kindOf (stripPtr f.ty)) with _ | _
        · rfl
        · exfalso
          have hn : ¬(pkgPath (stripPtr f.ty) ≠ "" ∧ kindOf (stripPtr f.ty) ≠ GoKind.kStruct
              ∧ customHandledKind (kindOf (stripPtr f.ty)) = true) := by
            simpa [customHandled] using hch
          exact hn ⟨hcond.1, hcond.2, hb2⟩
      revert hk
      generalize kindOf (stripPtr f.ty) = k
      cases k <;> simp [customHandledKind]
    · rw [if_neg hcond]
  rw [validateRequiredField.eq_def]
  cases hty : f.ty with
  | string => rw [hty] at hsw; simp [inPresenceSwitch] at hsw
  | bool => rw [hty] at hsw; simp [inPresenceSwitch] at hsw
  | int => rw [hty] at hsw; simp [inPresenceSwitch] at hsw
  | int32 => rw [hty] at hsw; simp [inPresenceSwitch] at hsw
  | int64 => rw [hty] at hsw; simp [inPresenceSwitch] at hsw
  | uint => rw [hty] at hsw; simp [inPresenceSwitch] at hsw
  | uint64 => rw [hty] at hsw; simp [inPresenceSwitch] at hsw
  | float64 => rw [hty] at hsw; simp [inPresenceSwitch] at hsw
  | ptrFloat64 => rw [hty] at hsw; simp [inPresenceSwitch] at hsw
  | duration => rw [hty] at hsw; simp [inPresenceSwitch] at hsw
  | time =>
    rw [hty] at hptr hslc
    dsimp only
    rw [if_neg hptr, if_neg hslc, hnone]
  | chanInt =>
    rw [hty] at hptr hslc
    dsimp only
    rw [if_neg hptr, if_neg hslc, hnone]
  | ptr inner => rw [hty] at hptr; simp [kindOf] at hptr
  | slice elem => rw [hty] at hslc; simp [kindOf] at hslc
  | named pkg nm' u =>
    rw [hty] at hptr hslc
    dsimp only
    rw [if_neg hptr, if_neg hslc, hnone]

/-- `ValidateRequired` returns the error of the first required field
that fails, provided every earlier required field passes. -/
theorem ValidateRequired_first_error (pre post : List (FieldMeta × GoValue))
    (f : FieldMeta) (v : GoValue) (m : String)
    (hpre : ∀ p ∈ pre, p.1.requiredTag = some "true" → validateRequiredField p.1 p.2 = .ok ())
    (hreq : f.requiredTag = some "true")
    (herr : validateRequiredField f v = .error m) :
    ValidateRequired (pre ++ (f, v) :: post) = .error m := by
  induction pre with
  | nil => simp [ValidateRequired, hreq, herr]
  | cons p t ih =>
    obtain ⟨g, w⟩ := p
    rw [List.cons_append, ValidateRequired]
    by_cases hg : g.requiredTag = some "true"
    · rw [if_pos hg, hpre ⟨g, w⟩ (by simp) hg]
      exact ih fun q hq hr => hpre q (by simp [hq]) hr
    · rw [if_neg hg]
      exact ih fun q hq hr => hpre q (by simp [hq]) hr

/-- If every field of the struct is boolean-like, `ValidateRequired`
never fails, whatever the values and required tags are. -/
theorem ValidateRequired_boolLike_ok (fields : List (FieldMeta × GoValue))
    (hb : ∀ p ∈ fields, boolLike p.1.ty = true) :
    ValidateRequired fields = .ok () := by
  induction fields with
  | nil => rfl
  | cons p t ih =>
    obtain ⟨g, w⟩ := p
    rw [ValidateRequired]
    by_cases hg : g.requiredTag = some "true"
    · rw [if_pos hg, validateRequiredField_boolLike g w (hb ⟨g, w⟩ (by simp))]
      exact ih fun q hq => hb q (by simp [hq])
    · rw [if_neg hg]
      exact ih fun q hq => hb q (by simp [hq])

/-! ### Substring machinery for the error-message claims -/

/-- `needle` occurs contiguously inside `hay`. -/
def substr (needle hay : String) : Prop :=
  ∃ x y, hay = x ++ needle ++ y

theorem str_append_assoc (a b c : String) : a ++ b ++ c = a ++ (b ++ c) :=
  String.append_assoc a b c

theorem str_append_empty (a : String) : a ++ "" = a :=
  String.append_empty a

theorem str_empty_append (a : String) : "" ++ a = a :=
  String.empty_append a

theorem createErrorMsg_arg (f : FieldMeta) (a : String) (ha : f.argTag = some a) :
    substr ("define parameter " ++ a) (createErrorMsg f) := by
  rw [createErrorMsg, ha]
  cases f.envTag with
  | none =>
    refine ⟨"Required field empty, ", "", ?_⟩
    simp only [String.append_assoc, String.append_empty, String.empty_append, Option.isSome_some,
      Option.isSome_none, Bool.false_eq_true, if_true, if_false]
  | some e =>
    refine ⟨"Required field empty, ", " or " ++ "define env " ++ e, ?_⟩
    simp only [String.append_assoc, String.append_empty, String.empty_append, Option.isSome_some,
      Option.isSome_none, Bool.false_eq_true, if_true, if_false]

theorem createErrorMsg_env (f : FieldMeta) (e : String) (he : f.envTag = some e) :
    substr ("define env " ++ e) (createErrorMsg f) := by
  rw [createErrorMsg, he]
  cases ha : f.argTag with
  | none =>
    refine ⟨"Required field empty, ", "", ?_⟩
    simp only [String.append_assoc, String.append_empty, String.empty_append, Option.isSome_some,
      Option.isSome_none, Bool.false_eq_true, if_true, if_false]
  | some a =>
    refine ⟨"Required field empty, " ++ "define parameter " ++ a ++ " or ", "", ?_⟩
    simp only [String.append_assoc, String.append_empty, String.empty_append, Option.isSome_some,
      Option.isSome_none, Bool.false_eq_true, if_true, if_false]

theorem createErrorMsg_both (f : FieldMeta) (a e : String)
    (ha : f.argTag = some a) (he : f.envTag = some e) :
    substr ("define parameter " ++ a ++ " or " ++ "define env " ++ e) (createErrorMsg f) := by
  rw [createErrorMsg, ha, he]
  refine ⟨"Required field empty, ", "", ?_⟩
  simp [String.append_assoc, String.append_empty, String.empty_append]

/-! ## `ValidateHasValidation` (semantic pass)

Model of `ValidateHasValidation` / `validateField` / `validateSlice`
from `argument_validate.go`.  A runtime value is modelled by whether
its type implements the `HasValidation` hook and, if so, what the hook
returns (`none` = success, `some msg` = failure); that is all these
functions observe.  `hook = none` models "does not implement
`HasValidation`"; `hook = some none` models "implements it and
succeeds"; `hook = some (some msg)` models "implements it and fails
with `msg`". -/

inductive HVal where
  | scalar (tyName : String) (hook : Option (Option String))
  | pointer (tyName : String) (isNil : Bool) (hook : Option (Option String))
  | sliceV (tyName : String) (hook : Option (Option String)) (elems : List HVal)

def HVal.tyNameOf : HVal → String
  | .scalar t _ => t
  | .pointer t _ _ => t
  | .sliceV t _ _ => t

/-- `v.Interface().(HasValidation)` plus the call of `Validate`. -/
def HVal.hookOf : HVal → Option (Option String)
  | .scalar _ h => h
  | .pointer _ _ h => h
  | .sliceV _ h _ => h

/-- The `errors.Wrapf(ctx, err, "field %s (type %s) validation failed", ...)` message. -/
def fieldFailMsg (name tyName msg : String) : String :=
  "field " ++ name ++ " (type " ++ tyName ++ ") validation failed: " ++ msg

/-- The `errors.Wrapf(ctx, err, "field %s[%d] (type %s) validation failed", ...)` message. -/
def elemFailMsg (name : String) (i : Nat) (tyName msg : String) : String :=
  "field " ++ name ++ "[" ++ toString i ++ "] (type " ++ tyName ++ ") validation failed: " ++ msg

/-- The element fallback loop of `validateSlice`: check each element's
hook in order, wrapping the first failure with the element index. -/
def validateElems (name : String) : Nat → List HVal → Except String Unit
  | _, [] => .ok ()
  | i, e :: rest =>
    match e.hookOf with
    | some (some msg) => .error (elemFailMsg name i e.tyNameOf msg)
    | _ => validateElems name (i + 1) rest

/-- Model of `validateSlice`: if the slice type itself implements
`HasValidation`, invoke only that hook (and return); otherwise fall
back to validating each element independently. -/
def validateSlice (name : String) : HVal → Except String Unit
  | .sliceV tyName (some r) _ =>
    match r with
    | some msg => .error (fieldFailMsg name tyName msg)
    | none => .ok ()
  | .sliceV _ none elems => validateElems name 0 elems
  | _ => .ok ()

/-- Model of `validateField`: slices are handled by `validateSlice`;
nil pointers are skipped before any hook is consulted; otherwise the
value's own hook (if implemented) is invoked and its failure wrapped. -/
def validateField (name : String) (v : HVal) : Except String Unit :=
  match v with
  | .sliceV _ _ _ => validateSlice name v
  | .pointer _ true _ => .ok ()
  | .pointer tyName false hook =>
    match hook with
    | some (some msg) => .error (fieldFailMsg name tyName msg)
    | _ => .ok ()
  | .scalar tyName hook =>
    match hook with
    | some (some msg) => .error (fieldFailMsg name tyName msg)
    | _ => .ok ()

/-- The field loop of `ValidateHasValidation`. -/
def validateFieldsLoop : List (String × HVal) → Except String Unit
  | [] => .ok ()
  | (name, v) :: rest =>
    match validateField name v with
    | .error e => .error e
    | .ok _ => validateFieldsLoop rest

/-- Model of `ValidateHasValidation`: the top-level struct's own hook
first (wrapped as "validation failed"), then every field in order. -/
def ValidateHasValidation (structHook : Option (Option String))
    (fields : List (String × HVal)) : Except String Unit :=
  match structHook with
  | some (some msg) => .error ("validation failed: " ++ msg)
  | _ => validateFieldsLoop fields

/-- `x.hookOf` reports an implemented-and-failing hook. -/
def hookFails (x : HVal) : Prop := ∃ msg, x.hookOf = some (some msg)

theorem validateElems_ok (name : String) (i : Nat) (elems : List HVal)
    (h : ∀ x ∈ elems, ¬hookFails x) :
    validateElems name i elems = .ok () := by
  induction elems generalizing i with
  | nil => rfl
  | cons x t ih =>
    rw [validateElems]
    rcases hx : x.hookOf with _ | r
    · exact ih (i + 1) fun y hy => h y (by simp [hy])
    · rcases r with _ | msg
      · exact ih (i + 1) fun y hy => h y (by simp [hy])
      · exact absurd ⟨msg, hx⟩ (h x (by simp))

theorem validateElems_first_fail (name : String) (i : Nat) (pre : List HVal)
    (e : HVal) (post : List HVal) (m : String)
    (hpre : ∀ x ∈ pre, ¬hookFails x) (hm : e.hookOf = some (some m)) :
    validateElems name i (pre ++ e :: post)
      = .error (elemFailMsg name (i + pre.length) e.tyNameOf m) := by
  induction pre generalizing i with
  | nil => simp [validateElems, hm]
  | cons x t ih =>
    rw [List.cons_append, validateElems]
    rcases hx : x.hookOf with _ | r
    · rw [ih (i + 1) fun y hy => hpre y (by simp [hy])]
      simp [Nat.add_assoc, Nat.add_comm 1]
    · rcases r with _ | msg
      · rw [ih (i + 1) fun y hy => hpre y (by simp [hy])]
        simp [Nat.add_assoc, Nat.add_comm 1]
      · exact absurd ⟨msg, hx⟩ (hpre x (by simp))

/-! ## The resolver pipeline: `DefaultValues`, `envToValues`,
`argsToValues`, `mergeValues`, `Fill`, `parse`

The external `github.com/bborbe/time` parsers are out-of-scope
collaborators (the spec consumes them "as a library"): they are passed
in via `TimeLib`.  `parseDuration` yields nanoseconds (`none` models a
parse error, matching the nil-pointer result), `parseTime` a Unix-nano
timestamp. -/

structure TimeLib where
  parseDuration : String → Option Int
  parseTime : String → Option Int

/-- `errors.Wrap(ctx, err, msg)` on the error path. -/
def wrapErr {α : Type} (msg : String) : Except String α → Except String α
  | .error e => .error (msg ++ ": " ++ e)
  | .ok a => .ok a

/-- The `parse field %s as %T failed` error text. -/
def parseFieldErr (f : FieldMeta) : String :=
  "parse field " ++ f.name ++ " as " ++ typeName f.ty ++ " failed"

/-- The unsupported-field error text of the resolvers. -/
def unsupportedFieldErr (f : FieldMeta) : String :=
  "field " ++ f.name ++ " with type " ++ typeName f.ty ++ " is unsupported"

/-- Model of `handleCustomTypeDefault` / `handleCustomTypeEnv` (the
two functions are textually identical in the source): a named
non-struct type with a handled primitive kind converts its text with
that primitive's strconv parser; the raw primitive result is stored
(`values[tf.Name] = value`), not wrapped in the named type. -/
def handleCustomTypeText (f : FieldMeta) (value : String) : Option (Except String GoValue) :=
  let u := stripPtr f.ty
  if pkgPath u ≠ "" ∧ kindOf u ≠ .kStruct then
    match kindOf u with
    | .kString => some (.ok (.str value))
    | .kBool =>
      some (match parseBoolModel value with
        | some b => .ok (.bool b)
        | none => .error (parseFieldErr f))
    | .kInt =>
      some (match parseIntModel value with
        | some n => .ok (.int n)
        | none => .error (parseFieldErr f))
    | .kInt64 =>
      some (match parseIntModel value with
        | some n => .ok (.int64 n)
        | none => .error (parseFieldErr f))
    | .kUint =>
      some (match parseUintModel value with
        | some n => .ok (.uint64 n)
        | none => .error (parseFieldErr f))
    | .kUint64 =>
      some (match parseUintModel value with
        | some n => .ok (.uint64 n)
        | none => .error (parseFieldErr f))
    | .kInt32 =>
      some (match parseIntModel value with
        | some n => .ok (.int32 n)
        | none => .error (parseFieldErr f))
    | .kFloat64 =>
      some (match parseFloatModel value with
        | some q => .ok (.float q)
        | none => .error (parseFieldErr f))
    | _ => none
  else none

/-! ### `DefaultValues` -/

/-- The type switch of `DefaultValues` for one field's default text.
Note: there is no slice case and no `time.Time` case — such fields
fall through to `handleCustomTypeDefault` and, when not a named
primitive type, to the unsupported-type error. -/
def defaultConvert (lib : TimeLib) (f : FieldMeta) (value : String) : Except String GoValue :=
  match f.ty with
  | .string => .ok (.str value)
  | .bool =>
    match parseBoolModel value with
    | some b => .ok (.bool b)
    | none => .error (parseFieldErr f)
  | .int =>
    match parseIntModel value with
    | some n => .ok (.int n)
    | none => .error (parseFieldErr f)
  | .int64 =>
    match parseIntModel value with
    | some n => .ok (.int64 n)
    | none => .error (parseFieldErr f)
  | .uint =>
    match parseUintModel value with
    | some n => .ok (.uint64 n)
    | none => .error (parseFieldErr f)
  | .uint64 =>
    match parseUintModel value with
    | some n => .ok (.uint64 n)
    | none => .error (parseFieldErr f)
  | .int32 =>
    match parseIntModel value with
    | some n => .ok (.int32 n)
    | none => .error (parseFieldErr f)
  | .float64 =>
    match parseFloatModel value with
    | some q => .ok (.float q)
    | none => .error (parseFieldErr f)
  | .ptrFloat64 =>
    match parseFloatModel value with
    | some q => .ok (.float q)
    | none => .error (parseFieldErr f)
  | .duration =>
    match lib.parseDuration value with
    | some n => .ok (.dur n)
    | none => .error (parseFieldErr f)
  | _ =>
    match handleCustomTypeText f value with
    | some r => r
    | none => .error (unsupportedFieldErr f)

def DefaultValuesAux (lib : TimeLib) (values : List (String × GoValue)) :
    List FieldMeta → Except String (List (String × GoValue))
  | [] => .ok values
  | f :: rest =>
    match f.defaultTag with
    | none => DefaultValuesAux lib values rest
    | some value =>
      match defaultConvert lib f value with
      | .error e => .error e
      | .ok v => DefaultValuesAux lib (insertV values f.name v) rest

/-- Model of `DefaultValues`: convert every field's `default` tag text
into the field's type; a failing conversion aborts the whole call. -/
def DefaultValues (lib : TimeLib) (fields : List FieldMeta) :
    Except String (List (String × GoValue)) :=
  DefaultValuesAux lib [] fields

/-! ### `envToValues` -/

/-- `separator := tf.Tag.Get("separator"); if separator == "" { separator = "," }` -/
def sepOf (f : FieldMeta) : String :=
  let s := f.separatorTag.getD ""
  if s = "" then "," else s

/-- `ef.Type().Elem()` for slice-kinded types. -/
def elemOf : GoTy → GoTy
  | .slice e => e
  | .named _ _ (.slice e) => e
  | t => t

/-- The type switch of `envToValues` for one matched field.  The
`encoding.TextUnmarshaler` check of the source precedes the slice
check but is vacuous here: no type of this model universe implements
the interface (the `github.com/bborbe/time` named types are not part
of the universe either, so their cases are omitted). -/
def envConvert (lib : TimeLib) (f : FieldMeta) (value : String) : Except String GoValue :=
  match f.ty with
  | .string => .ok (.str value)
  | .bool =>
    match parseBoolModel value with
    | some b => .ok (.bool b)
    | none => .error (parseFieldErr f)
  | .int =>
    match parseIntModel value with
    | some n => .ok (.int n)
    | none => .error (parseFieldErr f)
  | .int64 =>
    match parseIntModel value with
    | some n => .ok (.int64 n)
    | none => .error (parseFieldErr f)
  | .uint =>
    match parseUintModel value with
    | some n => .ok (.uint64 n)
    | none => .error (parseFieldErr f)
  | .uint64 =>
    match parseUintModel value with
    | some n => .ok (.uint64 n)
    | none => .error (parseFieldErr f)
  | .int32 =>
    match parseIntModel value with
    | some n => .ok (.int32 n)
    | none => .error (parseFieldErr f)
  | .float64 =>
    match parseFloatModel value with
    | some q => .ok (.float q)
    | none => .error (parseFieldErr f)
  | .duration =>
    match lib.parseDuration value with
    | some n => .ok (.dur n)
    | none => .error (parseFieldErr f)
  | .time =>
    match lib.parseTime value with
    | some n => .ok (.time n)
    | none => .error (parseFieldErr f)
  | .ptr .time =>
    match lib.parseTime value with
    | some n => .ok (.time n)
    | none => .error (parseFieldErr f)
  | .ptr .duration =>
    match lib.parseDuration value with
    | some n => .ok (.dur n)
    | none => .error (parseFieldErr f)
  | ty =>
    if kindOf ty = .kSlice then
      match parseSliceFromString value (sepOf f) (elemOf ty) with
      | .ok vs => .ok (.slice vs)
      | .error _ => .error (parseFieldErr f)
    else
      match handleCustomTypeText f value with
      | some r => r
      | none => .error (unsupportedFieldErr f)

def envToValuesAux (lib : TimeLib) (envMap : List (String × String))
    (values : List (String × GoValue)) :
    List FieldMeta → Except String (List (String × GoValue))
  | [] => .ok values
  | f :: rest =>
    match f.envTag with
    | none => envToValuesAux lib envMap values rest
    | some tag =>
      match lookupV envMap tag with
      | none => envToValuesAux lib envMap values rest
      | some value =>
        match envConvert lib f value with
        | .error e => .error e
        | .ok v => envToValuesAux lib envMap (insertV values f.name v) rest

/-- Model of `envToValues`: build the name→text map from the
environment block, then convert the text of every env-tagged field
whose name is bound. -/
def envToValues (lib : TimeLib) (fields : List FieldMeta) (environ : List String) :
    Except String (List (String × GoValue)) :=
  envToValuesAux lib (envValuesMap environ) [] fields

/-! ### `argsToValues` and the `flag` package model

`argsToValues` registers one binding per arg-tagged field on the flag
set and then runs `flag.Parse`.  Two binding styles occur in the
source:

* value flags (`flag.CommandLine.String/Bool/Int/...`): the flag keeps
  a current typed value, seeded from the default text (a failed seed
  parse is ignored, yielding the zero value); `values[tf.Name]` holds
  a pointer to it, so the final map entry is the post-parse value.
  Modelled by a `store` handler plus a deferred read in `ptrFields`.
* `flag.CommandLine.Func` callbacks (`*float64`, the time types and
  slices): the callback writes into `values` only when invoked; the
  pointer/time callbacks ignore an empty explicit value.
-/

inductive StoreKind where
  | sString | sBool | sInt | sInt64 | sUint | sUint64 | sFloat
  deriving DecidableEq, Repr

inductive FlagConv where
  | cPtrFloat
  | cDuration
  | cTime
  | cSlice (sep : String) (elem : GoTy)

inductive FlagHandler where
  | store (kind : StoreKind)
  | fn (conv : FlagConv)

structure FlagSpec where
  flagName : String
  fieldName : String
  handler : FlagHandler

/-- Whether the flag is a boolean flag (may be given without a value). -/
def isBoolSpec (s : FlagSpec) : Bool :=
  match s.handler with
  | .store .sBool => true
  | _ => false

/-- The mutable state of one `argsToValues` call: the value flags'
current values (by flag name) and the `values` map under construction
(by field name). -/
structure ArgSt where
  store : List (String × GoValue)
  values : List (String × GoValue)

structure RegAcc where
  specs : List FlagSpec
  st : ArgSt
  ptrFields : List (String × String)

/-- Register a value flag: seed the store and remember to read it back
after parsing (the pointer stored in `values`). -/
def storeReg (acc : RegAcc) (argName fieldName : String) (seed : GoValue) (k : StoreKind) :
    RegAcc :=
  { specs := acc.specs ++ [⟨argName, fieldName, .store k⟩],
    st := { acc.st with store := insertV acc.st.store argName seed },
    ptrFields := acc.ptrFields ++ [(fieldName, argName)] }

/-- Register a `Func` flag. -/
def fnReg (acc : RegAcc) (argName fieldName : String) (conv : FlagConv) : RegAcc :=
  { acc with specs := acc.specs ++ [⟨argName, fieldName, .fn conv⟩] }

/-- Pre-set `values[fieldName]` during registration (the default seeds
of the `Func`-style cases). -/
def seedValue (acc : RegAcc) (fieldName : String) (v : GoValue) : RegAcc :=
  { acc with st := { acc.st with values := insertV acc.st.values fieldName v } }

/-- Register the binding for one arg-tagged field (the type switch of
`argsToValues` up to `flag.CommandLine.Parse`). -/
def registerOne (lib : TimeLib) (f : FieldMeta) (argName : String) (acc : RegAcc) :
    Except String RegAcc :=
  let d := f.defaultTag.getD ""
  let found := f.defaultTag.isSome
  match f.ty with
  | .string => .ok (storeReg acc argName f.name (.str d) .sString)
  | .bool => .ok (storeReg acc argName f.name (.bool ((parseBoolModel d).getD false)) .sBool)
  | .int => .ok (storeReg acc argName f.name (.int ((parseIntModel d).getD 0)) .sInt)
  | .int64 => .ok (storeReg acc argName f.name (.int64 ((parseIntModel d).getD 0)) .sInt64)
  | .uint => .ok (storeReg acc argName f.name (.uint ((parseUintModel d).getD 0)) .sUint)
  | .uint64 => .ok (storeReg acc argName f.name (.uint64 ((parseUintModel d).getD 0)) .sUint64)
  | .int32 =>
    -- int32 fields register a plain `flag.Int`, so the resolved value is a Go int
    .ok (storeReg acc argName f.name (.int ((parseIntModel d).getD 0)) .sInt)
  | .float64 => .ok (storeReg acc argName f.name (.float ((parseFloatModel d).getD 0)) .sFloat)
  | .ptrFloat64 =>
    let acc :=
      if found then seedValue acc f.name (.float ((parseFloatModel d).getD 0)) else acc
    .ok (fnReg acc argName f.name .cPtrFloat)
  | .duration =>
    -- `defaultValue, _ := libtime.ParseDuration(...)`: a bad default is silently ignored
    let acc :=
      if found then
        match lib.parseDuration d with
        | some n => seedValue acc f.name (.dur n)
        | none => acc
      else acc
    .ok (fnReg acc argName f.name .cDuration)
  | .time =>
    if found then
      match lib.parseTime d with
      | none =>
        .error ("invalid default value " ++ quoteS d ++ " for field " ++ f.name)
      | some n => .ok (fnReg (seedValue acc f.name (.time n)) argName f.name .cTime)
    else .ok (fnReg acc argName f.name .cTime)
  | .ptr .time =>
    if found then
      match lib.parseTime d with
      | none =>
        .error ("invalid default value " ++ quoteS d ++ " for field " ++ f.name)
      | some n => .ok (fnReg (seedValue acc f.name (.time n)) argName f.name .cTime)
    else .ok (fnReg acc argName f.name .cTime)
  | .ptr .duration =>
    if found then
      match lib.parseDuration d with
      | none =>
        .error ("invalid default value " ++ quoteS d ++ " for field " ++ f.name)
      | some n => .ok (fnReg (seedValue acc f.name (.dur n)) argName f.name .cDuration)
    else .ok (fnReg acc argName f.name .cDuration)
  | ty =>
    if kindOf ty = .kSlice then
      let sep := sepOf f
      if found ∧ d ≠ "" then
        match parseSliceFromString d sep (elemOf ty) with
        | .error e =>
          .error ("invalid default value " ++ quoteS d ++ " for field " ++ f.name ++ ": " ++ e)
        | .ok vs =>
          .ok (fnReg (seedValue acc f.name (.slice vs)) argName f.name (.cSlice sep (elemOf ty)))
      else .ok (fnReg acc argName f.name (.cSlice sep (elemOf ty)))
    else
      -- handleCustomType: named types over a handled primitive kind get a value flag
      let u := stripPtr f.ty
      if pkgPath u ≠ "" ∧ kindOf u ≠ .kStruct then
        match kindOf u with
        | .kString => .ok (storeReg acc argName f.name (.str d) .sString)
        | .kBool => .ok (storeReg acc argName f.name (.bool ((parseBoolModel d).getD false)) .sBool)
        | .kInt => .ok (storeReg acc argName f.name (.int ((parseIntModel d).getD 0)) .sInt)
        | .kInt64 => .ok (storeReg acc argName f.name (.int64 ((parseIntModel d).getD 0)) .sInt64)
        | .kUint => .ok (storeReg acc argName f.name (.uint ((parseUintModel d).getD 0)) .sUint)
        | .kUint64 =>
          .ok (storeReg acc argName f.name (.uint64 ((parseUintModel d).getD 0)) .sUint64)
        | .kInt32 => .ok (storeReg acc argName f.name (.int ((parseIntModel d).getD 0)) .sInt)
        | .kFloat64 =>
          .ok (storeReg acc argName f.name (.float ((parseFloatModel d).getD 0)) .sFloat)
        | _ => .error (unsupportedFieldErr f)
      else .error (unsupportedFieldErr f)

def registerFields (lib : TimeLib) : List FieldMeta → RegAcc → Except String RegAcc
  | [], acc => .ok acc
  | f :: rest, acc =>
    match f.argTag with
    | none => registerFields lib rest acc
    | some argName =>
      match registerOne lib f argName acc with
      | .error e => .error e
      | .ok acc' => registerFields lib rest acc'

/-- Parse a text into a value flag's typed slot (`flag.Value.Set`). -/
def storeParse (k : StoreKind) (text : String) : Option GoValue :=
  match k with
  | .sString => some (.str text)
  | .sBool => (parseBoolModel text).map GoValue.bool
  | .sInt => (parseIntModel text).map GoValue.int
  | .sInt64 => (parseIntModel text).map GoValue.int64
  | .sUint => (parseUintModel text).map GoValue.uint
  | .sUint64 => (parseUintModel text).map GoValue.uint64
  | .sFloat => (parseFloatModel text).map GoValue.float

/-- Apply one explicit flag occurrence to the state (`Flag.Value.Set`
for value flags; the registered closure for `Func` flags). -/
def applyFlag (lib : TimeLib) (st : ArgSt) (spec : FlagSpec) (text : String) :
    Except String ArgSt :=
  match spec.handler with
  | .store k =>
    match storeParse k text with
    | some v => .ok { st with store := insertV st.store spec.flagName v }
    | none => .error ("invalid value " ++ quoteS text ++ " for flag -" ++ spec.flagName)
  | .fn conv =>
    match conv with
    | .cPtrFloat =>
      if text = "" then .ok st
      else
        match parseFloatModel text with
        | some q => .ok { st with values := insertV st.values spec.fieldName (.float q) }
        | none => .error ("parse float failed")
    | .cDuration =>
      if text = "" then .ok st
      else
        match lib.parseDuration text with
        | some n => .ok { st with values := insertV st.values spec.fieldName (.dur n) }
        | none => .error ("parse duration failed")
    | .cTime =>
      if text = "" then .ok st
      else
        match lib.parseTime text with
        | some n => .ok { st with values := insertV st.values spec.fieldName (.time n) }
        | none => .error ("parse time failed")
    | .cSlice sep elem =>
      match parseSliceFromString text sep elem with
      | .ok vs => .ok { st with values := insertV st.values spec.fieldName (.slice vs) }
      | .error e => .error e

def findSpec : List FlagSpec → String → Option FlagSpec
  | [], _ => none
  | s :: rest, key => if s.flagName = key then some s else findSpec rest key

/-- Split a flag token at its first `'='` (name vs explicit value). -/
def splitEq : List Char → List Char × Option (List Char)
  | [] => ([], none)
  | c :: rest =>
    if c = '=' then ([], some rest)
    else
      let p := splitEq rest
      (c :: p.1, p.2)

/-- Model of the `flag` package's `Parse` loop (`parseOne`): stop at
the first non-flag token or at `--`; one or two leading minuses; an
explicit `name=value`, a bool flag without value, or a value taken
from the next token.  One token is consumed per step, so fuel equal to
the argument count suffices; the fuel-exhausted branch is unreachable. -/
def parseFlagsFuel (lib : TimeLib) (specs : List FlagSpec) :
    Nat → ArgSt → List String → Except String ArgSt
  | 0, st, _ => .ok st
  | _ + 1, st, [] => .ok st
  | fuel + 1, st, s :: rest =>
    let cs := s.data
    if cs.length < 2 then .ok st
    else if cs.head? ≠ some '-' then .ok st
    else if cs = ['-', '-'] then .ok st
    else
      let nameChars := if cs.get? 1 = some '-' then cs.drop 2 else cs.drop 1
      match nameChars with
      | [] => .error ("bad flag syntax: " ++ s)
      | n0 :: _ =>
        if n0 = '-' ∨ n0 = '=' then .error ("bad flag syntax: " ++ s)
        else
          let p := splitEq nameChars
          match findSpec specs (String.mk p.1) with
          | none => .error ("flag provided but not defined: -" ++ String.mk p.1)
          | some spec =>
            match p.2 with
            | some v =>
              match applyFlag lib st spec (String.mk v) with
              | .error e => .error e
              | .ok st' => parseFlagsFuel lib specs fuel st' rest
            | none =>
              if isBoolSpec spec then
                match applyFlag lib st spec "true" with
                | .error e => .error e
                | .ok st' => parseFlagsFuel lib specs fuel st' rest
              else
                match rest with
                | v :: rest' =>
                  match applyFlag lib st spec v with
                  | .error e => .error e
                  | .ok st' => parseFlagsFuel lib specs fuel st' rest'
                | [] => .error ("flag needs an argument: -" ++ String.mk p.1)

/-- After parsing, read every value flag's final value into the
`values` map (the map holds pointers into the flags in the source, so
the entry is the post-parse value). -/
def finalizeValues (st : ArgSt) (ptrFields : List (String × String)) :
    List (String × GoValue) :=
  ptrFields.foldl
    (fun vals p =>
      match lookupV st.store p.2 with
      | some v => insertV vals p.1 v
      | none => vals)
    st.values

/-- Model of `argsToValues`: register all arg-tagged fields, run the
flag parse, and collect the resulting values. -/
def argsToValues (lib : TimeLib) (fields : List FieldMeta) (args : List String) :
    Except String (List (String × GoValue)) :=
  match registerFields lib fields ⟨[], ⟨[], []⟩, []⟩ with
  | .error e => .error e
  | .ok acc =>
    match parseFlagsFuel lib acc.specs args.length acc.st args with
    | .error e => .error ("parse commandline failed: " ++ e)
    | .ok st' => .ok (finalizeValues st' acc.ptrFields)

/-! ### `mergeValues`, `Fill`, `parse` -/

/-- Model of `mergeValues`: fold the source maps left to right, later
entries overwriting earlier ones for the same key. -/
def mergeValues (list : List (List (String × GoValue))) : List (String × GoValue) :=
  list.foldl
    (fun result values => values.foldl (fun r kv => insertV r kv.1 kv.2) result)
    []

/-- Model of `Fill` for the value shapes the resolvers produce: every
key present in the map is assigned onto the matching field; fields
absent from the map keep their previous (zero) value.  (The source
implements this as a JSON encode/decode round trip; on the resolver
outputs in this universe that round trip is the identity assignment.) -/
def Fill (fields : List (FieldMeta × GoValue)) (values : List (String × GoValue)) :
    List (FieldMeta × GoValue) :=
  fields.map fun fv =>
    match lookupV values fv.1.name with
    | some v => (fv.1, v)
    | none => fv

/-- Model of `parse`: args, then env, then defaults, then
`Fill(data, mergeValues(defaultValues, argsValues, envValues))`. -/
def parse (lib : TimeLib) (fields : List (FieldMeta × GoValue)) (args environ : List String) :
    Except String (List (FieldMeta × GoValue)) :=
  match wrapErr "arg to values failed" (argsToValues lib (fields.map Prod.fst) args) with
  | .error e => .error e
  | .ok argsValues =>
    match wrapErr "env to values failed" (envToValues lib (fields.map Prod.fst) environ) with
    | .error e => .error e
    | .ok envValues =>
      match wrapErr "default values failed" (DefaultValues lib (fields.map Prod.fst)) with
      | .error e => .error e
      | .ok defaultValues =>
        .ok (Fill fields (mergeValues [defaultValues, argsValues, envValues]))

/-- Model of `ParseArgs`: `argsToValues` followed by `Fill`. -/
def ParseArgs (lib : TimeLib) (fields : List (FieldMeta × GoValue)) (args : List String) :
    Except String (List (FieldMeta × GoValue)) :=
  match wrapErr "args to values failed" (argsToValues lib (fields.map Prod.fst) args) with
  | .error e => .error e
  | .ok values => .ok (Fill fields values)

/-- Model of `ParseEnv`: `envToValues` followed by `Fill`. -/
def ParseEnv (lib : TimeLib) (fields : List (FieldMeta × GoValue)) (environ : List String) :
    Except String (List (FieldMeta × GoValue)) :=
  match wrapErr "env to values failed" (envToValues lib (fields.map Prod.fst) environ) with
  | .error e => .error e
  | .ok values => .ok (Fill fields values)

/-! ### A concrete instance of the external time library

Modelled from the spec: the external `libtime.ParseDuration` ("duration
with extended units including days `d` and weeks `w`"), restricted to
whole-number unit sequences such as `"10s"` or `"1d2h30m"`.  It is used
only to instantiate `TimeLib` in concrete runs; none of the theorems
depend on its internals. -/

def durUnitNanos : Char → Option Int
  | 's' => some 1000000000
  | 'm' => some 60000000000
  | 'h' => some 3600000000000
  | 'd' => some 86400000000000
  | 'w' => some 604800000000000
  | _ => none

def parseDurAuxFuel : Nat → List Char → Int → Option Int
  | 0, _, _ => none
  | _ + 1, [], acc => some acc
  | fuel + 1, cs, acc =>
    let digits := cs.takeWhile Char.isDigit
    if digits = [] then none
    else
      match digitsToNat digits 0 with
      | none => none
      | some n =>
        match cs.drop digits.length with
        | [] => none
        | u :: rest =>
          match durUnitNanos u with
          | none => none
          | some mult => parseDurAuxFuel fuel rest (acc + (n : Int) * mult)

def parseDurationModel (s : String) : Option Int :=
  if s = "" then none else parseDurAuxFuel (s.data.length + 1) s.data 0

/-- The `TimeLib` instance used by the concrete runs. -/
def modelTimeLib : TimeLib :=
  ⟨parseDurationModel, fun _ => none⟩

/-! ## Lemmas about map folding (for the merge contract) -/

theorem lookupV_append {α : Type} (xs ys : List (String × α)) (k : String) :
    lookupV (xs ++ ys) k
      = match lookupV xs k with
        | some v => some v
        | none => lookupV ys k := by
  induction xs with
  | nil => simp [lookupV]
  | cons hd t ih =>
    obtain ⟨k0, v0⟩ := hd
    by_cases h : k0 = k
    · simp [lookupV, h]
    · simp [lookupV, h, ih]

theorem lookupV_foldl_insert {α : Type} (es : List (String × α)) (m : List (String × α))
    (k : String) :
    lookupV (es.foldl (fun r kv => insertV r kv.1 kv.2) m) k
      = match lookupV es.reverse k with
        | some v => some v
        | none => lookupV m k := by
  induction es generalizing m with
  | nil => simp [lookupV]
  | cons hd t ih =>
    obtain ⟨a, b⟩ := hd
    rw [List.foldl_cons, ih, List.reverse_cons, lookupV_append]
    cases lookupV t.reverse k with
    | some v => rfl
    | none =>
      by_cases h : a = k
      · subst h
        simp [lookupV, lookupV_insertV_self]
      · simp [lookupV, h, lookupV_insertV_ne m k a b h]

/-- The last binding for `k` among the insertions of `m`, i.e. lookup
with later entries taking precedence over earlier ones. -/
def lookupLast {α : Type} (m : List (String × α)) (k : String) : Option α :=
  lookupV m.reverse k

/-- `mergeValues [dflt, args, env]` resolves each key from the
environment map first, then the argument map, then the default map:
sources are applied in the fixed order default, argument, environment,
with later sources overwriting earlier ones. -/
theorem mergeValues_lookup (dflt args env : List (String × GoValue)) (k : String) :
    lookupV (mergeValues [dflt, args, env]) k
      = match lookupLast env k with
        | some v => some v
        | none =>
          match lookupLast args k with
          | some v => some v
          | none => lookupLast dflt k := by
  show lookupV
      ((env).foldl (fun r kv => insertV r kv.1 kv.2)
        ((args).foldl (fun r kv => insertV r kv.1 kv.2)
          ((dflt).foldl (fun r kv => insertV r kv.1 kv.2) []))) k
    = _
  rw [lookupV_foldl_insert, lookupV_foldl_insert, lookupV_foldl_insert]
  rw [lookupLast, lookupLast, lookupLast]
  cases lookupV env.reverse k with
  | some v => rfl
  | none =>
    cases lookupV args.reverse k with
    | some v => rfl
    | none =>
      cases lookupV dflt.reverse k with
      | some v => rfl
      | none => rfl

/-! ## Lemmas about the environment map construction -/

theorem mk_data (s : String) : String.mk s.data = s := rfl

/-- Every key produced while scanning with accumulated prefix `pre`
extends `pre`. -/
theorem entryBindingsAux_keys (pre xs : List Char) :
    ∀ kv ∈ entryBindingsAux pre xs, ∃ t, kv.1 = pre ++ t := by
  induction xs generalizing pre with
  | nil => intro kv h; simp [entryBindingsAux] at h
  | cons c rest ih =>
    intro kv h
    rw [entryBindingsAux] at h
    rcases List.mem_append.mp h with h1 | h2
    · by_cases hc : c = '='
      · simp [hc] at h1
        exact ⟨[], by simp [h1]⟩
      · simp [hc] at h1
    · obtain ⟨t, ht⟩ := ih (pre ++ [c]) kv h2
      exact ⟨[c] ++ t, by simp [ht]⟩

theorem lookupV_foldl_insert_ne (es : List (List Char × List Char))
    (m : List (String × String)) (k : String)
    (h : ∀ kv ∈ es, String.mk kv.1 ≠ k) :
    lookupV (es.foldl (fun r kv => insertV r (String.mk kv.1) (String.mk kv.2)) m) k
      = lookupV m k := by
  induction es generalizing m with
  | nil => rfl
  | cons hd t ih =>
    rw [List.foldl_cons, ih _ fun kv hkv => h kv (by simp [hkv])]
    exact lookupV_insertV_ne m k _ _ (h hd (by simp))

theorem envValuesMap_append (pre : List String) (e : String) :
    envValuesMap (pre ++ [e])
      = (entryBindings e).foldl
          (fun m kv => insertV m (String.mk kv.1) (String.mk kv.2)) (envValuesMap pre) := by
  rw [envValuesMap, envValuesMap, List.foldl_append]
  rfl

/-- The data of `name ++ "=" ++ value`. -/
theorem data_eq_entry (name value : String) :
    (name ++ "=" ++ value).data = name.data ++ '=' :: value.data := by
  rw [String.data_append, String.data_append]
  simp

/-- Processing one well-formed `NAME=value` entry binds `NAME` to
`value`, regardless of earlier bindings: the *last* occurrence of a
name in the environment block wins. -/
theorem envValuesMap_last_wins (pre : List String) (name value : String)
    (h : '=' ∉ name.data) :
    lookupV (envValuesMap (pre ++ [name ++ "=" ++ value])) name = some value := by
  rw [envValuesMap_append]
  rw [entryBindings, data_eq_entry]
  rw [entryBindingsAux_split [] name.data value.data h]
  rw [List.foldl_cons]
  simp only [List.nil_append]
  rw [lookupV_foldl_insert_ne]
  · rw [mk_data, mk_data]
    exact lookupV_insertV_self _ _ _
  · intro kv hkv heq
    obtain ⟨t, ht⟩ := entryBindingsAux_keys (name.data ++ ['=']) value.data kv hkv
    have hdata : kv.1 = name.data := by
      have := congrArg String.data heq
      simpa using this
    rw [ht] at hdata
    have hlen := congrArg List.length hdata
    simp at hlen

/-- Entries with no `'='` produce no binding at all. -/
theorem envValuesMap_no_eq (environ : List String)
    (h : ∀ e ∈ environ, '=' ∉ e.data) :
    envValuesMap environ = [] := by
  induction environ with
  | nil => rfl
  | cons e t ih =>
    have he : entryBindings e = [] := entryBindings_no_eq e (h e (by simp))
    have step : envValuesMap (e :: t)
        = t.foldl
            (fun m e =>
              (entryBindings e).foldl
                (fun m kv => insertV m (String.mk kv.1) (String.mk kv.2)) m)
            ((entryBindings e).foldl
              (fun m kv => insertV m (String.mk kv.1) (String.mk kv.2)) []) := rfl
    rw [step, he]
    exact ih fun x hx => h x (by simp [hx])

/-- A single entry `NAME=a=b`: the name before the first `'='` is bound
to the whole text after it, and every later `'='` records a further
binding whose key itself contains `'='`. -/
theorem envValuesMap_inner_eq (name v1 v2 : String)
    (hn : '=' ∉ name.data) (h1 : '=' ∉ v1.data) (h2 : '=' ∉ v2.data) :
    lookupV (envValuesMap [name ++ "=" ++ v1 ++ "=" ++ v2]) name = some (v1 ++ "=" ++ v2)
      ∧ lookupV (envValuesMap [name ++ "=" ++ v1 ++ "=" ++ v2]) (name ++ "=" ++ v1)
          = some v2 := by
  have hassoc : name ++ "=" ++ v1 ++ "=" ++ v2 = name ++ "=" ++ (v1 ++ "=" ++ v2) := by
    simp [String.append_assoc]
  have hdata : (name ++ "=" ++ v1 ++ "=" ++ v2).data
      = name.data ++ '=' :: (v1.data ++ '=' :: v2.data) := by
    rw [hassoc, data_eq_entry, data_eq_entry]
  have hmk1 : String.mk (v1.data ++ '=' :: v2.data) = v1 ++ "=" ++ v2 := by
    rw [← data_eq_entry]
  have hmk2 : String.mk (name.data ++ ['='] ++ v1.data) = name ++ "=" ++ v1 := by
    have : (name ++ "=" ++ v1).data = name.data ++ ['='] ++ v1.data := by
      rw [data_eq_entry]; simp
    rw [← this]
  have hne : ¬(name ++ "=" ++ v1) = name := by
    intro heq
    have hlen : (name ++ "=" ++ v1).data.length = name.data.length := by rw [heq]
    rw [data_eq_entry] at hlen
    simp at hlen
  have hmap : envValuesMap [name ++ "=" ++ v1 ++ "=" ++ v2]
      = insertV (insertV [] name (v1 ++ "=" ++ v2)) (name ++ "=" ++ v1) v2 := by
    have hstep : envValuesMap [name ++ "=" ++ v1 ++ "=" ++ v2]
        = (entryBindings (name ++ "=" ++ v1 ++ "=" ++ v2)).foldl
            (fun m kv => insertV m (String.mk kv.1) (String.mk kv.2)) [] := rfl
    rw [hstep, entryBindings, hdata]
    rw [entryBindingsAux_split [] name.data _ hn]
    simp only [List.nil_append]
    rw [entryBindingsAux_split (name.data ++ ['=']) v1.data v2.data h1]
    rw [entryBindingsAux_no_eq _ v2.data h2]
    simp only [List.foldl_cons, List.foldl_nil, List.append_assoc, List.singleton_append]
    rw [mk_data]
    rw [hmk1]
    have : String.mk (name.data ++ '=' :: v1.data) = name ++ "=" ++ v1 := by
      rw [← hmk2]; simp
    rw [this, mk_data]
  constructor
  · rw [hmap, lookupV_insertV_ne _ _ _ _ hne, lookupV_insertV_self]
  · rw [hmap, lookupV_insertV_self]

/-! ## Concrete configurations used by the claim theorems -/

def userField : FieldMeta :=
  { name := "Username", ty := .string, argTag := some "user", envTag := some "USER",
    defaultTag := some "Ben" }

def portField : FieldMeta :=
  { name := "Port", ty := .int, argTag := some "port", envTag := some "PORT",
    defaultTag := some "1" }

def timeoutField : FieldMeta :=
  { name := "Timeout", ty := .duration, argTag := some "timeout", envTag := some "TIMEOUT",
    defaultTag := some "10s" }

def amountField : FieldMeta :=
  { name := "Amount", ty := .ptrFloat64, argTag := some "amount" }

def namesDefaultField : FieldMeta :=
  { name := "Names", ty := .slice .string, defaultTag := some "alice, bob" }

def namesArgField : FieldMeta :=
  { name := "Names", ty := .slice .string, argTag := some "names" }

def emptyEnvNameField : FieldMeta :=
  { name := "F", ty := .string, envTag := some "" }

def envNameField : FieldMeta :=
  { name := "F", ty := .string, envTag := some "NAME" }

def envNameEqField : FieldMeta :=
  { name := "G", ty := .string, envTag := some "NAME=a" }

def portRequiredField : FieldMeta :=
  { name := "Port", ty := .int, argTag := some "port", envTag := some "PORT",
    requiredTag := some "true" }

def startRequiredField : FieldMeta :=
  { name := "Start", ty := .time, requiredTag := some "true" }

def debugBoolField : FieldMeta :=
  { name := "Debug", ty := .bool, requiredTag := some "true" }

def activeNamedBoolField : FieldMeta :=
  { name := "Active", ty := .named "main" "Active" .bool, requiredTag := some "true" }

/-! ## The claims -/

/-- C1: after a full parse call in which one field has a default
value, an explicitly passed command-line argument value, and an
environment variable value all present, the resolved value on the
target struct equals the environment variable's value: `mergeValues`
applies the three source maps in the fixed order default, then
argument, then environment, with later sources overwriting earlier
ones for the same key, and the same source wins for the string, int
and duration semantic types. -/
theorem claim1_env_wins_precedence :
    (∀ (dflt args env : List (String × GoValue)) (k : String),
      lookupV (mergeValues [dflt, args, env]) k
        = match lookupLast env k with
          | some v => some v
          | none =>
            match lookupLast args k with
            | some v => some v
            | none => lookupLast dflt k)
    ∧ parse modelTimeLib [(userField, zeroValue .string)] ["-user=Arg"] ["USER=Env"]
        = .ok [(userField, .str "Env")]
    ∧ parse modelTimeLib [(portField, zeroValue .int)] ["-port=2"] ["PORT=3"]
        = .ok [(portField, .int 3)]
    ∧ parse modelTimeLib [(timeoutField, zeroValue .duration)] ["-timeout=20s"] ["TIMEOUT=30s"]
        = .ok [(timeoutField, .dur 30000000000)] :=
  ⟨fun dflt args env k => mergeValues_lookup dflt args env k, rfl, rfl, rfl⟩

/-- C2: the default resolver has no slice branch, so a field
`Names []string` tagged `default:"alice, bob"` makes `DefaultValues` —
and hence the whole parse call — fail with an unsupported-type error,
even though `parseSliceFromString` itself converts the same text to
`["alice","bob"]` (as the argument resolver does for slice defaults). -/
theorem claim2_slice_default_unsupported :
    parseSliceFromString "alice, bob" "," .string
      = .ok [.str "alice", .str "bob"]
    ∧ DefaultValues modelTimeLib [namesDefaultField]
        = .error "field Names with type []string is unsupported"
    ∧ parse modelTimeLib [(namesDefaultField, zeroValue (.slice .string))] [] []
        = .error "default values failed: field Names with type []string is unsupported" :=
  ⟨rfl, rfl, rfl⟩

/-- C3 (counterexample): an environment entry with an empty name
(`"=v"`) is *not* skipped: it produces a binding for the empty-string
key, and a field whose `env` tag is the empty string receives it. -/
theorem claim3_counterexample :
    envToValues modelTimeLib [emptyEnvNameField] ["=v"] = .ok [("F", .str "v")]
    ∧ lookupV (envValuesMap ["=v"]) "" = some "v" :=
  ⟨rfl, rfl⟩

/-- C3 (amended): `envToValues` turns the environment block into a
name-to-text map with last-occurrence-wins semantics; entries
containing no `'='` produce no binding and never cause an error;
entries with an empty name produce a binding keyed by the empty
string (matching only fields whose `env` tag is the empty string)
rather than being skipped. -/
theorem claim3_env_map_amended :
    (∀ (pre : List String) (name value : String), '=' ∉ name.data →
      lookupV (envValuesMap (pre ++ [name ++ "=" ++ value])) name = some value)
    ∧ (∀ environ : List String, (∀ e ∈ environ, '=' ∉ e.data) → envValuesMap environ = [])
    ∧ lookupV (envValuesMap ["=v"]) "" = some "v" :=
  ⟨envValuesMap_last_wins, envValuesMap_no_eq, rfl⟩

theorem claim3_env_map_amended_witness :
    ('=' ∉ ("USER" : String).data)
    ∧ lookupV (envValuesMap ["A" ++ "=" ++ "x", "USER" ++ "=" ++ "Env"]) "USER" = some "Env" :=
  ⟨by decide,
    claim3_env_map_amended.1 ["A" ++ "=" ++ "x"] "USER" "Env" (by decide)⟩

/-- C4: `parseSliceFromString` is exactly split-on-separator,
trim-each-segment, drop-empty-segments, convert-each-remaining-segment
(for every supported element kind); an empty input or an input whose
segments are all empty after trimming yields an empty (length-zero)
slice and no error, so an explicitly passed empty string fills an
empty list, not an absent/nil one. -/
theorem claim4_slice_conversion_contract :
    (∀ (value sep : String) (elem : GoTy), kindSupported (kindOf elem) = true →
      parseSliceFromString value sep elem = convSegments (convElem elem) (segmentsOf value sep))
    ∧ (∀ (sep : String) (elem : GoTy), parseSliceFromString "" sep elem = .ok [])
    ∧ (∀ (value sep : String) (elem : GoTy), segmentsOf value sep = [] →
        parseSliceFromString value sep elem = .ok [])
    ∧ ParseArgs modelTimeLib [(namesArgField, zeroValue (.slice .string))] ["-names="]
        = .ok [(namesArgField, .slice [])] := by
  refine ⟨parseSliceFromString_characterization, ?_, ?_, rfl⟩
  · intro sep elem
    rw [parseSliceFromString_eq]
    simp
  · intro value sep elem h
    rw [parseSliceFromString_eq]
    by_cases hv : value = ""
    · simp [hv]
    · simp [hv, h]

theorem claim4_slice_conversion_contract_witness :
    kindSupported (kindOf GoTy.string) = true
    ∧ parseSliceFromString "alice, bob" "," .string
        = convSegments (convElem .string) (segmentsOf "alice, bob" ",")
    ∧ parseSliceFromString "alice, bob" "," .string = .ok [.str "alice", .str "bob"] :=
  ⟨rfl, claim4_slice_conversion_contract.1 "alice, bob" "," .string rfl, rfl⟩

/-- C5: a required field of a presence-supported type whose value is
its type's empty/zero representation makes `ValidateRequired` return
the error for the first failing field in declaration order, and the
message contains "define parameter <arg>" when an `arg` tag exists
and/or "define env <env>" when an `env` tag exists, joined with
" or " when both exist. -/
theorem claim5_required_empty_first_error
    (pre post : List (FieldMeta × GoValue)) (f : FieldMeta) (v : GoValue)
    (hpre : ∀ p ∈ pre, p.1.requiredTag = some "true" → validateRequiredField p.1 p.2 = .ok ())
    (hreq : f.requiredTag = some "true")
    (hsup : presenceSupported f.ty = true)
    (hemp : isEmptyRep f.ty v = true) :
    ValidateRequired (pre ++ (f, v) :: post) = .error (createErrorMsg f)
    ∧ (∀ a, f.argTag = some a → substr ("define parameter " ++ a) (createErrorMsg f))
    ∧ (∀ e, f.envTag = some e → substr ("define env " ++ e) (createErrorMsg f))
    ∧ (∀ a e, f.argTag = some a → f.envTag = some e →
        substr ("define parameter " ++ a ++ " or " ++ "define env " ++ e) (createErrorMsg f)) :=
  ⟨ValidateRequired_first_error pre post f v (createErrorMsg f) hpre hreq
      (validateRequiredField_empty f v hsup hemp),
    fun a ha => createErrorMsg_arg f a ha,
    fun e he => createErrorMsg_env f e he,
    fun a e ha he => createErrorMsg_both f a e ha he⟩

theorem claim5_required_empty_first_error_witness :
    ValidateRequired [(portRequiredField, .int 0)] = .error (createErrorMsg portRequiredField)
    ∧ createErrorMsg portRequiredField
        = "Required field empty, define parameter port or define env PORT" :=
  ⟨(claim5_required_empty_first_error [] [] portRequiredField (.int 0)
      (by intro p hp; simp at hp) rfl rfl rfl).1,
    rfl⟩

/-- C6: a boolean field, and a named type whose underlying
representation is boolean, never fails `ValidateRequired` when marked
`required:"true"`, whatever the field's value (including `false`). -/
theorem claim6_bool_required_never_fails :
    (∀ (f : FieldMeta) (v : GoValue), boolLike f.ty = true →
      validateRequiredField f v = .ok ())
    ∧ (∀ fields : List (FieldMeta × GoValue), (∀ p ∈ fields, boolLike p.1.ty = true) →
        ValidateRequired fields = .ok ()) :=
  ⟨validateRequiredField_boolLike, ValidateRequired_boolLike_ok⟩

theorem claim6_bool_required_never_fails_witness :
    validateRequiredField debugBoolField (.bool false) = .ok ()
    ∧ ValidateRequired
        [(debugBoolField, .bool false),
          (activeNamedBoolField, .named "main" "Active" (.bool false))] = .ok () :=
  ⟨claim6_bool_required_never_fails.1 debugBoolField (.bool false) rfl,
    claim6_bool_required_never_fails.2 _ (by
      intro p hp
      simp only [List.mem_cons, List.mem_singleton] at hp
      rcases hp with hp | hp | hp
      · rw [hp]; decide
      · rw [hp]; decide
      · simp at hp)⟩

/-- C7: in the semantic validation pass, a slice field whose slice
type implements the `Validate` hook invokes only the slice-level hook
(the result does not depend on the elements, which are not validated);
element-by-element validation happens only when the slice type itself
does not implement the hook (first failing element wins, with its
index in the message); and a nil-pointer field is skipped without
invoking anything — no error. -/
theorem claim7_slice_hook_preferred_nil_ptr_skipped :
    (∀ (name tyN : String) (r : Option String) (elems elems' : List HVal),
      validateField name (.sliceV tyN (some r) elems)
        = validateField name (.sliceV tyN (some r) elems'))
    ∧ (∀ (name tyN msg : String) (elems : List HVal),
        validateField name (.sliceV tyN (some (some msg)) elems)
          = .error (fieldFailMsg name tyN msg))
    ∧ (∀ (name tyN : String) (elems : List HVal),
        validateField name (.sliceV tyN (some none) elems) = .ok ())
    ∧ (∀ (name tyN : String) (pre : List HVal) (e : HVal) (post : List HVal) (m : String),
        (∀ x ∈ pre, ¬hookFails x) → e.hookOf = some (some m) →
        validateField name (.sliceV tyN none (pre ++ e :: post))
          = .error (elemFailMsg name pre.length e.tyNameOf m))
    ∧ (∀ (name tyN : String) (elems : List HVal), (∀ x ∈ elems, ¬hookFails x) →
        validateField name (.sliceV tyN none elems) = .ok ())
    ∧ (∀ (name tyN : String) (hook : Option (Option String)),
        validateField name (.pointer tyN true hook) = .ok ()) := by
  refine ⟨fun _ _ _ _ _ => rfl, fun _ _ _ _ => rfl, fun _ _ _ => rfl, ?_, ?_, fun _ _ _ => rfl⟩
  · intro name tyN pre e post m hpre hm
    have h := validateElems_first_fail name 0 pre e post m hpre hm
    simpa using h
  · intro name tyN elems h
    exact validateElems_ok name 0 elems h

theorem claim7_slice_hook_preferred_nil_ptr_skipped_witness :
    validateField "Brokers"
        (.sliceV "main.Brokers" none
          [.scalar "main.Broker" (some none), .scalar "main.Broker" (some (some "bad"))])
      = .error (elemFailMsg "Brokers" 1 "main.Broker" "bad")
    ∧ elemFailMsg "Brokers" 1 "main.Broker" "bad"
        = "field Brokers[1] (type main.Broker) validation failed: bad" := by
  constructor
  · have h := claim7_slice_hook_preferred_nil_ptr_skipped.2.2.2.1 "Brokers" "main.Brokers"
      [.scalar "main.Broker" (some none)] (.scalar "main.Broker" (some (some "bad"))) [] "bad"
      (by
        intro x hx
        simp at hx
        rw [hx]
        rintro ⟨msg, hmsg⟩
        simp [HVal.hookOf] at hmsg)
      rfl
    simpa using h
  · rfl

/-- C8: a `*float64` field with an argument name and no default,
explicitly passed with empty text on the argument source, contributes
no binding to the argument value map, and after the full parse call
the field is still nil/absent, not zero. -/
theorem claim8_ptr_float_empty_text_stays_nil :
    argsToValues modelTimeLib [amountField] ["-amount="] = .ok []
    ∧ parse modelTimeLib [(amountField, zeroValue .ptrFloat64)] ["-amount="] []
        = .ok [(amountField, .ptr none)]
    ∧ zeroValue .ptrFloat64 = .ptr none :=
  ⟨rfl, rfl, rfl⟩

/-- C9: a required field whose type is outside every branch of the
presence pass (a struct type such as `time.Time`, or any other type
that is no supported primitive, duration, pointer, slice, or handled
named type) makes `ValidateRequired` return a
"field ... with type ... is unsupported" error regardless of the
field's value, even when the field is fully populated. -/
theorem claim9_required_unsupported_type
    (pre post : List (FieldMeta × GoValue)) (f : FieldMeta) (v : GoValue)
    (hpre : ∀ p ∈ pre, p.1.requiredTag = some "true" → validateRequiredField p.1 p.2 = .ok ())
    (hreq : f.requiredTag = some "true")
    (hunsup : presenceSupported f.ty = false) :
    ValidateRequired (pre ++ (f, v) :: post)
      = .error ("field " ++ f.name ++ " with type " ++ typeName f.ty ++ " is unsupported") :=
  ValidateRequired_first_error pre post f v _ hpre hreq
    (validateRequiredField_unsupported f v hunsup)

theorem claim9_required_unsupported_type_witness :
    ValidateRequired [(startRequiredField, .time 123)]
      = .error "field Start with type time.Time is unsupported" :=
  claim9_required_unsupported_type [] [] startRequiredField (.time 123)
    (by intro p hp; simp at hp) rfl rfl

/-- C10: for an environment entry whose value itself contains `'='`
(such as `NAME=a=b`), the name before the first `'='` is bound to the
entire text after it (`a=b`), and every later `'='` records a further
binding keyed by the text before it (a key that itself contains `'='`,
matching only fields whose `env` tag contains `'='`). -/
theorem claim10_env_entry_inner_equals :
    (∀ name v1 v2 : String, '=' ∉ name.data → '=' ∉ v1.data → '=' ∉ v2.data →
      lookupV (envValuesMap [name ++ "=" ++ v1 ++ "=" ++ v2]) name = some (v1 ++ "=" ++ v2)
        ∧ lookupV (envValuesMap [name ++ "=" ++ v1 ++ "=" ++ v2]) (name ++ "=" ++ v1)
            = some v2)
    ∧ envToValues modelTimeLib [envNameField, envNameEqField] ["NAME=a=b"]
        = .ok [("F", .str "a=b"), ("G", .str "b")] :=
  ⟨envValuesMap_inner_eq, rfl⟩

theorem claim10_env_entry_inner_equals_witness :
    ('=' ∉ ("NAME" : String).data)
    ∧ lookupV (envValuesMap ["NAME" ++ "=" ++ "a" ++ "=" ++ "b"]) "NAME"
        = some ("a" ++ "=" ++ "b") :=
  ⟨by decide,
    (claim10_env_entry_inner_equals.1 "NAME" "a" "b" (by decide) (by decide) (by decide)).1⟩

end Argument
